import Mathlib

/-!
# NODI board game — verification of the rules/legality/AI core

Shallow embedding of the NODI rules engine (src/game/types.ts, src/game/rules.ts,
src/game/scatter.ts, src/store/gameStore.ts, src/components/Board.tsx,
src/engine/greedy.ts).  The repository files contain two spliced historical
versions of several modules; where both are relevant we embed both and name the
older one with a `V1` suffix.

Conventions of the embedding:
* JS numbers used as coordinates are `Int`; board cells are `Option Piece`;
  a board is a list of rows (`List (List (Option Piece))`), normally 8×8.
* JS heuristic scores (floats in the source, all decimal constants with at most
  two fractional digits) are embedded as exact integers scaled by 100
  (0.25 ↦ 25, 9999 ↦ 999900, …); comparisons are unaffected by the scaling.
* Unbounded `while` walks along a ray direction are embedded with fuel 8:
  starting from an in-bounds square and stepping by a unit compass direction,
  at most 8 successive squares can be in bounds, so fuel 8 is exact.
* JS property access on `undefined` (a thrown `TypeError`) is modelled with
  `Except Unit`; total accessors model the bounds-checked code paths.
-/

/-- Players (src/game/rules.ts). -/
inductive Player where
  | White
  | Black
deriving DecidableEq, Repr

/-- A single counter on a piece (src/game/rules.ts `Counter`). -/
structure Counter where
  owner : Player
  isKey : Bool
deriving DecidableEq, Repr

/-- 8-point compass direction (src/game/types.ts `Dir`). -/
inductive Dir where
  | N | NE | E | SE | S | SW | W | NW
deriving DecidableEq, Repr

/-- A board piece: 1 counter = single, 2 counters = king (src/game/rules.ts
`Piece`).  The source types the counters as an array; well-formed boards hold
only 1- or 2-counter pieces (`WFBoard` below). -/
structure Piece where
  counters : List Counter
  arrowDir : Option Dir
deriving DecidableEq, Repr

/-- Board coordinate (src/game/types.ts `Coord`); `Int` so that out-of-bounds
coordinates such as `-1` are representable. -/
structure Coord where
  r : Int
  c : Int
deriving DecidableEq, Repr

/-- 8×8 board of optional pieces (src/game/rules.ts `Board`, second version:
`(Piece | null)[][]`; the first version's `Cell[][]` with `Cell = {piece?}`
carries the same information). -/
abbrev Board : Type := List (List (Option Piece))

/-- Direction deltas (src/game/types.ts `DIRS`). -/
def DIRS : Dir → Int × Int
  | .N => (-1, 0)
  | .NE => (-1, 1)
  | .E => (0, 1)
  | .SE => (1, 1)
  | .S => (1, 0)
  | .SW => (1, -1)
  | .W => (0, -1)
  | .NW => (-1, -1)

/-- `inBounds` (src/game/types.ts): `r>=0 && r<8 && c>=0 && c<8`. -/
def inBounds (r c : Int) : Bool :=
  decide (0 ≤ r ∧ r < 8 ∧ 0 ≤ c ∧ c < 8)

/-- Raw cell lookup `b[r][c]` for indices the source only uses in range
(loop counters `0 ≤ r,c < 8`); missing entries default to empty. -/
def cellAtN (b : Board) (r c : Nat) : Option Piece :=
  match List.get? b r with
  | some row => (List.get? row c).getD none
  | none => none

/-- `pieceAt` (src/game/rules.ts, second version): bounds-checked lookup,
`null` off board. -/
def pieceAt (b : Board) (pos : Coord) : Option Piece :=
  if inBounds pos.r pos.c then cellAtN b pos.r.toNat pos.c.toNat else none

/-- `isKing` (src/game/rules.ts): exactly two counters. -/
def isKing (p : Piece) : Bool :=
  p.counters.length == 2

/-- `ownerOf` (src/game/rules.ts): owner of the first counter.  The source
indexes `counters[0]`; every piece the engine constructs is non-empty, and the
`[]` branch below is never reached from a well-formed board. -/
def ownerOf (p : Piece) : Player :=
  match p.counters with
  | [] => Player.White
  | cc :: _ => cc.owner

/-- `isKeyPiece` (src/game/rules.ts): some counter is flagged as a key. -/
def isKeyPiece (p : Piece) : Bool :=
  p.counters.any (fun cc => cc.isKey)

/-- `emptyBoard` (src/game/rules.ts): 8×8 of empty cells. -/
def emptyBoard : Board :=
  List.replicate 8 (List.replicate 8 none)

/-- Well-formed board: every piece present has 1 or 2 counters (data-model
invariant of §3 of the design; all boards built by the engine satisfy it). -/
def WFBoard (b : Board) : Bool :=
  b.all (fun row => row.all (fun cell =>
    match cell with
    | some p => decide (1 ≤ p.counters.length) && decide (p.counters.length ≤ 2)
    | none => true))

/-- The ray walk shared by `getRayForKing` (src/game/rules.ts, second version)
and `visibleSquares` (first version): from a start square, push each in-bounds
square, stop after pushing the first occupied one.  `fuel` 8 is exact for walks
starting next to an in-bounds square (see module comment). -/
def rayGo (b : Board) (dr dc : Int) : Nat → Int → Int → List Coord
  | 0, _, _ => []
  | n + 1, r, c =>
    if inBounds r c then
      ⟨r, c⟩ :: (if (pieceAt b ⟨r, c⟩).isSome then [] else rayGo b dr dc n (r + dr) (c + dc))
    else []

/-- `getRayForKing` (src/game/rules.ts, second version): squares along the
king's arrow, not including the origin, up to and including the first blocker;
`[]` when the square does not hold a king with an arrow. -/
def getRayForKing (b : Board) (pos : Coord) : List Coord :=
  match pieceAt b pos with
  | some p =>
    if isKing p then
      match p.arrowDir with
      | some d => rayGo b (DIRS d).1 (DIRS d).2 8 (pos.r + (DIRS d).1) (pos.c + (DIRS d).2)
      | none => []
    else []
  | none => []

/-- Contribution of the cell `(r, c)` to the ray delta at `pos` for a target
piece owned by `tOwner`: ±1 when that cell holds a king with an arrow whose ray
covers `pos` (the accumulation loop inside `valueAt`). -/
def rayContrib (b : Board) (pos : Coord) (tOwner : Player) (r c : Nat) : Int :=
  match cellAtN b r c with
  | some q =>
    if isKing q && q.arrowDir.isSome then
      if pos ∈ getRayForKing b ⟨(r : Int), (c : Int)⟩ then
        if ownerOf q = tOwner then 1 else -1
      else 0
    else 0
  | none => 0

/-- Sum of the ray contributions over the whole 8×8 grid. -/
def rayDelta (b : Board) (pos : Coord) (tOwner : Player) : Int :=
  ((List.range 8).map (fun r =>
    ((List.range 8).map (fun c => rayContrib b pos tOwner r c)).sum)).sum

/-- `valueAt` (src/game/rules.ts, second version): 0 for an empty square, else
counter count plus the ray delta, clamped into the 0–3 ability band (`v <= 0`
returns 0, `v >= 3` returns 3).  The first version computes the same value via
`clamp(baseValue(p) + rayDelta(b,pos), 0, 3)`. -/
def valueAt (b : Board) (pos : Coord) : Int :=
  match pieceAt b pos with
  | none => 0
  | some p =>
    let v : Int := (p.counters.length : Int) + rayDelta b pos (ownerOf p)
    if v ≤ 0 then 0 else if 3 ≤ v then 3 else v

/-- The `k`-th square (0-based) along the ray of direction `d` from `f`,
excluding `f` itself. -/
def lineSq (f : Coord) (d : Dir) (k : Nat) : Coord :=
  ⟨f.r + (k + 1) * (DIRS d).1, f.c + (k + 1) * (DIRS d).2⟩

/-- JS cell assignment `next[pos.r][pos.c] = v` (writes are in bounds in every
modelled call site; an out-of-bounds write, which would throw in JS, is a
no-op here and is never exercised). -/
def setCell (b : Board) (pos : Coord) (v : Option Piece) : Board :=
  if inBounds pos.r pos.c then
    b.set pos.r.toNat ((b.getD pos.r.toNat []).set pos.c.toNat v)
  else b

/-- A concrete board for the C9 witness: a white king at (3,3) with an east
arrow and a black single blocker at (3,5). -/
def c9Board : Board :=
  setCell (setCell emptyBoard ⟨3, 3⟩
      (some ⟨[⟨Player.White, false⟩, ⟨Player.White, false⟩], some Dir.E⟩))
    ⟨3, 5⟩ (some ⟨[⟨Player.Black, false⟩], none⟩)

/-! ## Legality engine (one-step moves / captures / combines) -/

/-- The 8 neighbour squares in source order (the `neigh` array of
`legalMovesFor`, src/game/rules.ts second version). -/
def neighbors (f : Coord) : List Coord :=
  [⟨f.r - 1, f.c - 1⟩, ⟨f.r - 1, f.c⟩, ⟨f.r - 1, f.c + 1⟩,
   ⟨f.r, f.c - 1⟩, ⟨f.r, f.c + 1⟩,
   ⟨f.r + 1, f.c - 1⟩, ⟨f.r + 1, f.c⟩, ⟨f.r + 1, f.c + 1⟩]

/-- Result record of `legalMovesFor` (src/game/rules.ts, second version):
`{ moves, combines, captures }`. -/
structure LMResult where
  moves : List Coord
  combines : List Coord
  captures : List Coord
deriving DecidableEq, Repr

/-- `legalMovesFor` (src/game/rules.ts, second version): one-step moves and
captures for value ≥ 1, and combines for non-key singles onto friendly non-key
singles.  The per-list contents and order agree with the source's single pass
over the neighbour array. -/
def legalMovesFor (b : Board) (fromSq : Coord) : LMResult :=
  match pieceAt b fromSq with
  | none => ⟨[], [], []⟩
  | some me =>
    let myOwner := ownerOf me
    let myVal := valueAt b fromSq
    let neigh := neighbors fromSq
    let moves :=
      if 1 ≤ myVal then
        neigh.filter (fun q => inBounds q.r q.c && (pieceAt b q).isNone)
      else []
    let captures :=
      if 1 ≤ myVal then
        neigh.filter (fun q =>
          inBounds q.r q.c &&
            match pieceAt b q with
            | some t => !decide (ownerOf t = myOwner) && decide (valueAt b q ≤ myVal)
            | none => false)
      else []
    let combines :=
      if 1 ≤ myVal && !isKing me && !isKeyPiece me then
        neigh.filter (fun q =>
          inBounds q.r q.c &&
            match pieceAt b q with
            | some t => !isKing t && decide (ownerOf t = myOwner) && !isKeyPiece t
            | none => false)
      else []
    ⟨moves, combines, captures⟩

/-- `canCombine` (src/game/rules.ts, first version): both pieces are singles,
neither counter is a key, and owners agree (`counters[0]` is the only counter
of a single). -/
def canCombine (mover target : Piece) : Bool :=
  match mover.counters, target.counters with
  | [m0], [t0] => !m0.isKey && !t0.isKey && decide (ownerOf mover = ownerOf target)
  | _, _ => false

/-- `canCapture` (src/game/rules.ts, first version): both squares occupied,
owners differ, and the attacker's value meets or exceeds the defender's
(`atk >= def`, so ties go to the attacker). -/
def canCapture (b : Board) (fromSq toSq : Coord) : Bool :=
  match pieceAt b fromSq, pieceAt b toSq with
  | some atkP, some defP =>
    if ownerOf atkP = ownerOf defP then false
    else decide (valueAt b toSq ≤ valueAt b fromSq)
  | _, _ => false

/-- Board for the C2 witness: a black single at (0,0) and a white single at
(0,1); both have value 1, so the tie capture is legal both ways. -/
def c2Board : Board :=
  setCell (setCell emptyBoard ⟨0, 0⟩ (some ⟨[⟨Player.Black, false⟩], none⟩))
    ⟨0, 1⟩ (some ⟨[⟨Player.White, false⟩], none⟩)

/-- Board for the C3 witness: a black king at (4,4), a black single at (4,5),
and a second black single at (5,5) adjacent to the first. -/
def c3Board : Board :=
  setCell (setCell (setCell emptyBoard ⟨4, 4⟩
        (some ⟨[⟨Player.Black, false⟩, ⟨Player.Black, false⟩], some Dir.N⟩))
      ⟨4, 5⟩ (some ⟨[⟨Player.Black, false⟩], none⟩))
    ⟨5, 5⟩ (some ⟨[⟨Player.Black, false⟩], none⟩)

/-! ## Rotation -/

/-- Rotation sense (`'CW' | 'CCW'`). -/
inductive RotDir where
  | CW
  | CCW
deriving DecidableEq, Repr

/-- The compass order used by every rotation site
(`['N','NE','E','SE','S','SW','W','NW']`). -/
def DIR_ORDER : List Dir :=
  [.N, .NE, .E, .SE, .S, .SW, .W, .NW]

/-- One rotation step: `order[(indexOf(dir) + 1) % 8]` clockwise,
`order[(indexOf(dir) + 7) % 8]` counter-clockwise (src/game/rules.ts
`rotateArrow`; the same computation appears in `actRotateArrow` and in
`applyMoveClone`'s rotate branch). -/
def rotStepDir (rd : RotDir) (d : Dir) : Dir :=
  DIR_ORDER.getD ((DIR_ORDER.indexOf d + (match rd with | .CW => 1 | .CCW => 7)) % 8) .N

/-- `rotateArrow` (src/game/rules.ts, first version) as a pure function on the
piece: no-op without an arrow, else step the arrow one compass position. -/
def rotateArrow (p : Piece) (rd : RotDir) : Piece :=
  match p.arrowDir with
  | none => p
  | some a => { p with arrowDir := some (rotStepDir rd a) }

/-- `actRotateArrow` (src/store/gameStore.ts): guard that the square holds a
king with an arrow, then write back the piece with its arrow stepped one
compass position (the store clones the board and mutates the clone; the board
transition is modelled as a pure function, ignoring store bookkeeping). -/
def actRotateArrow (b : Board) (pos : Coord) (rd : RotDir) : Board :=
  match pieceAt b pos with
  | none => b
  | some p =>
    if isKing p then
      match p.arrowDir with
      | some a => setCell b pos (some { p with arrowDir := some (rotStepDir rd a) })
      | none => b
    else b

/-- Sequential application of a board action `n` times (the `for` loop of
`confirmRotation` issuing one `actRotateArrow` per step; each call reads the
store's current board). -/
def applyN (f : Board → Board) : Nat → Board → Board
  | 0, b => b
  | n + 1, b => applyN f n (f b)

/-- `confirmRotation` (src/components/Board.tsx): rotate the selected king
clockwise `(indexOf(previewDir) - indexOf(cur) + 8) % 8` times via
`actRotateArrow`, then end the turn iff `valueAt(board, selected) === 2` —
where `board` is the component's render-time (pre-rotation) board, not the
rotated one.  Returns the final board and whether the turn was consumed. -/
def confirmRotation (b : Board) (sel : Coord) (preview : Option Dir) : Board × Bool :=
  match pieceAt b sel with
  | none => (b, false)
  | some p =>
    match preview with
    | none => (b, false)
    | some pv =>
      if isKing p then
        match p.arrowDir with
        | some cur =>
          let steps := (DIR_ORDER.indexOf pv + 8 - DIR_ORDER.indexOf cur) % 8
          (applyN (fun bb => actRotateArrow bb sel RotDir.CW) steps b,
            valueAt b sel == 2)
        | none => (b, false)
      else (b, false)

/-- Board for the C5 witness at value 2: a lone black king at (3,3), arrow
north. -/
def c5Board2 : Board :=
  setCell emptyBoard ⟨3, 3⟩
    (some ⟨[⟨Player.Black, false⟩, ⟨Player.Black, false⟩], some Dir.N⟩)

/-- Board for the C5 witness at value 3: the same king boosted to 3 by a
friendly king at (5,3) whose north ray reaches (3,3). -/
def c5Board3 : Board :=
  setCell c5Board2 ⟨5, 3⟩
    (some ⟨[⟨Player.Black, false⟩, ⟨Player.Black, false⟩], some Dir.N⟩)

/-! ## Scatter (src/game/scatter.ts) -/

/-- The slide walk of `scatterBases` (and of `slideSquares` in the first
rules.ts): collect empty in-bounds squares, stopping before the first
blocker. -/
def basesGo (b : Board) (dr dc : Int) : Nat → Int → Int → List Coord
  | 0, _, _ => []
  | n + 1, r, c =>
    if inBounds r c then
      if (pieceAt b ⟨r, c⟩).isSome then []
      else ⟨r, c⟩ :: basesGo b dr dc n (r + dr) (c + dc)
    else []

/-- `scatterBases` (src/game/scatter.ts): `[]` unless the square holds a king
with an arrow; always includes the king's square; at value ≥ 3 also every
empty square reachable by sliding along the arrow. -/
def scatterBases (b : Board) (fromSq : Coord) : List Coord :=
  match pieceAt b fromSq with
  | none => []
  | some me =>
    if isKing me then
      match me.arrowDir with
      | none => []
      | some d =>
        if 3 ≤ valueAt b fromSq then
          fromSq :: basesGo b (DIRS d).1 (DIRS d).2 8
            (fromSq.r + (DIRS d).1) (fromSq.c + (DIRS d).2)
        else [fromSq]
    else []

/-- The rejection reasons of `validateScatter`, one per source string:
`notKing` = "Not a king with an arrow.", `valueTooLow` = "Value < 2 cannot
scatter.", `v2BaseMismatch` = "V2 can only scatter from current square.",
`offboard` = "Landing squares out of bounds.", `allyBlock` = "Cannot land on
friendly piece.", `captureExceeds` = "Capture exceeds king value.". -/
inductive ScatterReason where
  | notKing
  | valueTooLow
  | v2BaseMismatch
  | offboard
  | allyBlock
  | captureExceeds
deriving DecidableEq, Repr

/-- Result of `validateScatter`: `{ l1, l2, can, reason? }`. -/
structure ScatterInfo where
  l1 : Coord
  l2 : Coord
  can : Bool
  reason : Option ScatterReason
deriving DecidableEq, Repr

/-- The value a landing square contributes to the scatter capture budget:
the square's `valueAt` when it holds an enemy of `me`, else 0 (the
`enemySum` accumulation of `validateScatter`). -/
def enemyValueOn (b : Board) (me : Piece) (sq : Coord) : Int :=
  match pieceAt b sq with
  | some t => if ownerOf t = ownerOf me then 0 else valueAt b sq
  | none => 0

/-- `validateScatter` (src/game/scatter.ts): landing squares are the next two
squares from `base` along the arrow; requires a king with an arrow, value ≥ 2,
`base = from` when the value is exactly 2, on-board landings, no friendly
piece on a landing, and the summed enemy values on the landings within the
king's current value at `from`. -/
def validateScatter (b : Board) (fromSq base : Coord) : ScatterInfo :=
  match pieceAt b fromSq with
  | none => ⟨fromSq, fromSq, false, some .notKing⟩
  | some me =>
    if isKing me then
      match me.arrowDir with
      | none => ⟨fromSq, fromSq, false, some .notKing⟩
      | some d =>
        let myVal := valueAt b fromSq
        if myVal < 2 then ⟨fromSq, fromSq, false, some .valueTooLow⟩
        else if myVal = 2 ∧ base ≠ fromSq then
          ⟨fromSq, fromSq, false, some .v2BaseMismatch⟩
        else
          let l1 : Coord := ⟨base.r + (DIRS d).1, base.c + (DIRS d).2⟩
          let l2 : Coord := ⟨base.r + 2 * (DIRS d).1, base.c + 2 * (DIRS d).2⟩
          if ¬(inBounds l1.r l1.c = true ∧ inBounds l2.r l2.c = true) then
            ⟨l1, l2, false, some .offboard⟩
          else
            let fr1 := match pieceAt b l1 with
              | some t => decide (ownerOf t = ownerOf me)
              | none => false
            let fr2 := match pieceAt b l2 with
              | some t => decide (ownerOf t = ownerOf me)
              | none => false
            if fr1 || fr2 then ⟨l1, l2, false, some .allyBlock⟩
            else
              let enemySum := enemyValueOn b me l1 + enemyValueOn b me l2
              if myVal < enemySum then ⟨l1, l2, false, some .captureExceeds⟩
              else ⟨l1, l2, true, none⟩
    else ⟨fromSq, fromSq, false, some .notKing⟩

/-- Board for the C4 witness: a white king at (3,3) with an east arrow
(value 2) and a black single at (3,5) on the second landing square. -/
def c4wBoard : Board :=
  setCell (setCell emptyBoard ⟨3, 3⟩
      (some ⟨[⟨Player.White, false⟩, ⟨Player.White, false⟩], some Dir.E⟩))
    ⟨3, 5⟩ (some ⟨[⟨Player.Black, false⟩], none⟩)

/-- Board for the C4 counterexample: a white king at (0,0) with an east arrow,
debuffed to value 1 by the black king at (4,0) whose north ray reaches
(0,0). -/
def c4xBoard : Board :=
  setCell (setCell emptyBoard ⟨0, 0⟩
      (some ⟨[⟨Player.White, false⟩, ⟨Player.White, false⟩], some Dir.E⟩))
    ⟨4, 0⟩ (some ⟨[⟨Player.Black, false⟩, ⟨Player.Black, false⟩], some Dir.N⟩)

/-! ## Out-of-bounds access (C6) -/

/-- JS array indexing `l[i]`: `undefined` (here `none`) for a negative index
or an index at or beyond the length. -/
def jsIndex {α : Type} (l : List α) (i : Int) : Option α :=
  if 0 ≤ i then List.get? l i.toNat else none

/-- `pieceAt` (src/game/rules.ts, FIRST version, line 13):
`b[pos.r][pos.c].piece` with no bounds check.  When `pos.r` is out of range,
`b[pos.r]` is `undefined` and the column access throws a `TypeError`; when
`pos.c` is out of range the cell is `undefined` and `.piece` throws.  Both
are modelled as `Except.error ()`. -/
def pieceAtV1 (b : Board) (pos : Coord) : Except Unit (Option Piece) :=
  match jsIndex b pos.r with
  | none => Except.error ()
  | some row =>
    match jsIndex row pos.c with
    | none => Except.error ()
    | some cell => Except.ok cell

/-- `pieceAt` (second version) with the JS accesses made explicit: the bounds
check fires before any indexing, so off-board queries return `null` and
in-bounds queries index an existing row and cell. -/
def pieceAtE (b : Board) (pos : Coord) : Except Unit (Option Piece) :=
  if inBounds pos.r pos.c then
    match jsIndex b pos.r with
    | none => Except.error ()
    | some row =>
      match jsIndex row pos.c with
      | none => Except.error ()
      | some cell => Except.ok cell
  else Except.ok none

/-- A full 8×8 board: 8 rows of length 8 (every board the engine builds). -/
def WF8 (b : Board) : Bool :=
  (b.length == 8) && b.all (fun row => row.length == 8)

/-! ## Action application (src/store/gameStore.ts, src/engine/greedy.ts) -/

/-- `DIR_FROM_DELTA[sign(dr),sign(dc)]` (gameStore / greedy `dirFromDelta`):
the compass direction of a step, `none` for the unmapped zero delta. -/
def dirFromDelta (a bq : Coord) : Option Dir :=
  let dr := Int.sign (bq.r - a.r)
  let dc := Int.sign (bq.c - a.c)
  if dr = -1 ∧ dc = 0 then some .N
  else if dr = -1 ∧ dc = 1 then some .NE
  else if dr = 0 ∧ dc = 1 then some .E
  else if dr = 1 ∧ dc = 1 then some .SE
  else if dr = 1 ∧ dc = 0 then some .S
  else if dr = 1 ∧ dc = -1 then some .SW
  else if dr = 0 ∧ dc = -1 then some .W
  else if dr = -1 ∧ dc = -1 then some .NW
  else none

/-- `actMove` board transition (src/store/gameStore.ts, second version): no-op
when the source square is empty; otherwise clear the destination when flagged
as a capture, put the moved piece on the destination, and clear the source
(store bookkeeping — history, turn toggle, selection — is out of scope). -/
def actMove (b : Board) (fromSq toSq : Coord) (isCapture : Bool) : Board :=
  match pieceAt b fromSq with
  | none => b
  | some p =>
    let next := if isCapture then setCell b toSq none else b
    setCell (setCell next toSq (some p)) fromSq none

/-- `actCombine` board transition (src/store/gameStore.ts, second version):
guarded against missing pieces, kings, keys, and mixed owners, then stacks
the mover's counters onto the target with the move direction as the arrow. -/
def actCombine (b : Board) (fromSq onto : Coord) : Board :=
  match pieceAt b fromSq, pieceAt b onto with
  | some a, some t =>
    if isKing a || isKing t || isKeyPiece a || isKeyPiece t then b
    else if ownerOf a ≠ ownerOf t then b
    else
      setCell (setCell b onto (some ⟨t.counters ++ a.counters, dirFromDelta fromSq onto⟩))
        fromSq none
  | _, _ => b

/-- `actScatter` board transition (src/store/gameStore.ts, second version):
no-op when the source is not a king; otherwise it unconditionally clears BOTH
landing squares (`next[l1] = null; next[l2] = null` with no ownership check),
places two fresh non-key singles of the king's owner there, and clears the
king's square. -/
def actScatter (b : Board) (fromSq l1 l2 : Coord) : Board :=
  match pieceAt b fromSq with
  | none => b
  | some k =>
    if isKing k then
      let owner := ownerOf k
      setCell (setCell (setCell (setCell (setCell b l1 none) l2 none)
        l1 (some ⟨[⟨owner, false⟩], none⟩)) l2 (some ⟨[⟨owner, false⟩], none⟩)) fromSq none
    else b

/-- AI action variants (src/engine/greedy.ts `AIMove`); scores are the
engine's heuristic floats, embedded ×100 as exact integers. -/
inductive AIMove where
  | combine (fromSq toSq : Coord) (score : Int)
  | move (fromSq toSq : Coord) (score : Int) (capture : Bool)
  | rotate (atSq : Coord) (dir : RotDir) (score : Int)
  | scatter (fromSq l1 l2 : Coord) (score : Int)
deriving DecidableEq, Repr

/-- The score annotation of an AI action. -/
def AIMove.score : AIMove → Int
  | .combine _ _ s => s
  | .move _ _ s _ => s
  | .rotate _ _ s => s
  | .scatter _ _ _ s => s

/-- Replace the score annotation (the `{...m, score: v}` spreads of
`pickWithLookahead`). -/
def AIMove.setScore : AIMove → Int → AIMove
  | .combine f t _, s => .combine f t s
  | .move f t _ cap, s => .move f t s cap
  | .rotate a d _, s => .rotate a d s
  | .scatter f l1 l2 _, s => .scatter f l1 l2 s

/-- The opposing side (greedy.ts `other`). -/
def other : Player → Player
  | .Black => .White
  | .White => .Black

/-- `applyMoveClone` (src/engine/greedy.ts): apply a hypothetical action to a
cloned board; each variant is guarded only by piece existence (and king/arrow
shape for rotate and scatter).  The `side` argument is unused, as in the
source (`_side`). -/
def applyMoveClone (b : Board) (side : Player) (m : AIMove) : Board :=
  match m with
  | .move fromSq toSq _ cap =>
    match pieceAt b fromSq with
    | none => b
    | some p =>
      let next := if cap then setCell b toSq none else b
      setCell (setCell next toSq (some p)) fromSq none
  | .combine fromSq onto _ =>
    match pieceAt b fromSq, pieceAt b onto with
    | some a, some t =>
      setCell (setCell b onto (some ⟨t.counters ++ a.counters, dirFromDelta fromSq onto⟩))
        fromSq none
    | _, _ => b
  | .rotate atSq rd _ =>
    match pieceAt b atSq with
    | some p =>
      if isKing p then
        match p.arrowDir with
        | some a => setCell b atSq (some { p with arrowDir := some (rotStepDir rd a) })
        | none => b
      else b
    | none => b
  | .scatter fromSq l1 l2 _ =>
    match pieceAt b fromSq with
    | some p =>
      if isKing p then
        setCell (setCell (setCell b fromSq none) l1 (some ⟨[⟨ownerOf p, false⟩], none⟩))
          l2 (some ⟨[⟨ownerOf p, false⟩], none⟩)
      else b
    | none => b

/-- Board for the C8 witness and counterexample: a black king at (0,0) with an
east arrow and a friendly black KEY single at (0,1). -/
def c8Board : Board :=
  setCell (setCell emptyBoard ⟨0, 0⟩
      (some ⟨[⟨Player.Black, false⟩, ⟨Player.Black, false⟩], some Dir.E⟩))
    ⟨0, 1⟩ (some ⟨[⟨Player.Black, true⟩], none⟩)

/-! ## AI engine (src/engine/greedy.ts) -/

/-- All grid indices in row-major order (the nested `for r … for c` loops). -/
def cellsIdx : List (Nat × Nat) :=
  (List.range 8).flatMap (fun r => (List.range 8).map (fun c => (r, c)))

/-- `keySquares`: coordinates of `side`'s key pieces. -/
def keySquares (b : Board) (side : Player) : List Coord :=
  cellsIdx.filterMap (fun rc =>
    match pieceAt b ⟨(rc.1 : Int), (rc.2 : Int)⟩ with
    | some p =>
      if isKeyPiece p && decide (ownerOf p = side) then some ⟨(rc.1 : Int), (rc.2 : Int)⟩
      else none
    | none => none)

/-- `canSideCaptureSquare`: some piece of `side` lists `target` among its
one-step captures. -/
def canSideCaptureSquare (b : Board) (side : Player) (target : Coord) : Bool :=
  cellsIdx.any (fun rc =>
    let fromSq : Coord := ⟨(rc.1 : Int), (rc.2 : Int)⟩
    match pieceAt b fromSq with
    | some p =>
      decide (ownerOf p = side) &&
        (legalMovesFor b fromSq).captures.any
          (fun t => decide (t.r = target.r) && decide (t.c = target.c))
    | none => false)

/-- `canOppCaptureOurKey`: the opponent can capture one of `me`'s keys. -/
def canOppCaptureOurKey (b : Board) (me : Player) : Bool :=
  (keySquares b me).any (fun k => canSideCaptureSquare b (other me) k)

/-- `keysRemaining`: number of `side`'s key pieces on the board. -/
def keysRemaining (b : Board) (side : Player) : Nat :=
  cellsIdx.countP (fun rc =>
    match pieceAt b ⟨(rc.1 : Int), (rc.2 : Int)⟩ with
    | some p => decide (ownerOf p = side) && isKeyPiece p
    | none => false)

/-- `roughAdjEmpties`: adjacent empty in-bounds squares (the 3×3 loop skips the
centre and visits neighbours in the same order as `neighbors`). -/
def roughAdjEmpties (b : Board) (pos : Coord) : Nat :=
  (neighbors pos).countP (fun q => inBounds q.r q.c && (pieceAt b q).isNone)

/-- Per-cell material/key/value/arrow contribution of `evaluateBoard`
(scores ×100: king 3 ↦ 300, single 1 ↦ 100, key 5 ↦ 500, value ×0.25 ↦ ×25,
arrow nudge 0.15 ↦ 15). -/
def pieceCellScore (b : Board) (me : Player) (rc : Nat × Nat) : Int :=
  match pieceAt b ⟨(rc.1 : Int), (rc.2 : Int)⟩ with
  | none => 0
  | some p =>
    let sign : Int := if ownerOf p = me then 1 else -1
    sign * (if isKing p then 300 else 100) +
      (if isKeyPiece p then sign * 500 else 0) +
      sign * (valueAt b ⟨(rc.1 : Int), (rc.2 : Int)⟩ * 25) +
      (if isKing p && p.arrowDir.isSome then sign * 15 else 0)

/-- Number of kings of `who` whose ray walk (push each square, stop at the
first blocker inclusive — the `rayHits` pass of `evaluateBoard`, identical to
`getRayForKing`'s walk) covers `sq`. -/
def rayCov (b : Board) (who : Player) (sq : Coord) : Nat :=
  cellsIdx.countP (fun rc =>
    let pos : Coord := ⟨(rc.1 : Int), (rc.2 : Int)⟩
    match pieceAt b pos with
    | some p =>
      isKing p && p.arrowDir.isSome && decide (ownerOf p = who) &&
        decide (sq ∈ getRayForKing b pos)
    | none => false)

/-- The ray/node-control pass of `evaluateBoard` (×100: 0.4 ↦ 40, 0.8 ↦ 80);
with two players, the kings not owned by `me` are exactly those owned by
`other me`. -/
def nodeScore (b : Board) (me : Player) : Int :=
  (cellsIdx.map (fun rc =>
    let sq : Coord := ⟨(rc.1 : Int), (rc.2 : Int)⟩
    40 * ((rayCov b me sq : Int) - (rayCov b (other me) sq : Int)) +
      (if 2 ≤ rayCov b me sq then 80 else 0))).sum

/-- `evaluateBoard` (×100 throughout): material + keys + values + arrow
nudges, mobility 0.15 ↦ 15, ray/node control, key-threat −6 ↦ −600,
per-king threat −1.2 ↦ −120, terminal +1000 ↦ +100000. -/
def evaluateBoard (b : Board) (me : Player) : Int :=
  let material := (cellsIdx.map (pieceCellScore b me)).sum
  let myMoves : Int := (cellsIdx.map (fun rc =>
    match pieceAt b ⟨(rc.1 : Int), (rc.2 : Int)⟩ with
    | some p => if ownerOf p = me then (roughAdjEmpties b ⟨(rc.1 : Int), (rc.2 : Int)⟩ : Int)
      else 0
    | none => 0)).sum
  let opMoves : Int := (cellsIdx.map (fun rc =>
    match pieceAt b ⟨(rc.1 : Int), (rc.2 : Int)⟩ with
    | some p => if ownerOf p = me then 0
      else (roughAdjEmpties b ⟨(rc.1 : Int), (rc.2 : Int)⟩ : Int)
    | none => 0)).sum
  let kingThreat : Int := (cellsIdx.map (fun rc =>
    let pos : Coord := ⟨(rc.1 : Int), (rc.2 : Int)⟩
    match pieceAt b pos with
    | some p =>
      if isKing p && decide (ownerOf p = me) && canSideCaptureSquare b (other me) pos
      then (-120 : Int) else 0
    | none => 0)).sum
  material + 15 * (myMoves - opMoves) + nodeScore b me +
    (if canOppCaptureOurKey b me then (-600 : Int) else 0) + kingThreat +
    (if keysRemaining b (other me) = 0 then (100000 : Int) else 0)

/-- The centralisation nudge for quiet moves (×100):
`0.03*((3-|3.5-r|)+(3-|3.5-c|))`; with `S = |7-2r| + |7-2c|` (always even)
this is exactly `18 - 3*(S/2)`. -/
def centerNudge (toSq : Coord) : Int :=
  18 - 3 * ((((7 - 2 * toSq.r).natAbs : Int) + ((7 - 2 * toSq.c).natAbs : Int)) / 2)

/-- Candidate actions generated for one cell of `enumerateMoves`, in source
push order: combines (+0.6 ↦ +60, hanging −1.25 ↦ −125), captures (+1.5 ↦
+150, key +3 ↦ +300, recapture −0.9 ↦ −90), quiet moves (centre nudge,
hanging −0.75 ↦ −75), free rotations for value ≥ 3 kings, and validated
scatters (+0.4 ↦ +40). -/
def enumCell (b : Board) (side : Player) (rc : Nat × Nat) : List AIMove :=
  let pos : Coord := ⟨(rc.1 : Int), (rc.2 : Int)⟩
  match pieceAt b pos with
  | none => []
  | some p =>
    if decide (ownerOf p = side) then
      let lm := legalMovesFor b pos
      let combines := lm.combines.map (fun toSq =>
        let next := applyMoveClone b side (.combine pos toSq 0)
        let sc := evaluateBoard next side + 60
        let sc := if canSideCaptureSquare next (other side) toSq then sc - 125 else sc
        AIMove.combine pos toSq sc)
      let captures := lm.captures.map (fun toSq =>
        let tgt := pieceAt b toSq
        let next := applyMoveClone b side (.move pos toSq 0 true)
        let capBonus : Int :=
          150 + (match tgt with | some t => if isKeyPiece t then 300 else 0 | none => 0)
        let sc := evaluateBoard next side + capBonus
        let sc := if canSideCaptureSquare next (other side) toSq then sc - 90 else sc
        AIMove.move pos toSq sc true)
      let quiets := lm.moves.map (fun toSq =>
        let next := applyMoveClone b side (.move pos toSq 0 false)
        let sc := evaluateBoard next side + centerNudge toSq
        let sc := if canSideCaptureSquare next (other side) toSq then sc - 75 else sc
        AIMove.move pos toSq sc false)
      let rotations :=
        if isKing p && p.arrowDir.isSome && decide (3 ≤ valueAt b pos) then
          [RotDir.CW, RotDir.CCW].map (fun rd =>
            AIMove.rotate pos rd (evaluateBoard (applyMoveClone b side (.rotate pos rd 0)) side))
        else []
      let scatters :=
        if isKing p && p.arrowDir.isSome && decide (2 ≤ valueAt b pos) then
          (scatterBases b pos).filterMap (fun base =>
            let info := validateScatter b pos base
            if info.can then
              some (AIMove.scatter pos info.l1 info.l2
                (evaluateBoard (applyMoveClone b side (.scatter pos info.l1 info.l2 0)) side + 40))
            else none)
        else []
      combines ++ captures ++ quiets ++ rotations ++ scatters
    else []

/-- Stable insertion keeping scores descending (ties keep the earlier element
first), modelling the JS stable `sort((a, b) => b.score - a.score)`. -/
def insertDesc (x : AIMove) : List AIMove → List AIMove
  | [] => [x]
  | y :: ys => if AIMove.score y ≤ AIMove.score x then x :: y :: ys else y :: insertDesc x ys

/-- Stable descending sort by score. -/
def sortByScoreDesc : List AIMove → List AIMove
  | [] => []
  | x :: xs => insertDesc x (sortByScoreDesc xs)

/-- `enumerateMoves`: all scored candidates for `side`, best first. -/
def enumerateMoves (b : Board) (side : Player) : List AIMove :=
  sortByScoreDesc (cellsIdx.flatMap (enumCell b side))

/-- JS `arr.slice(0, n)` (matches on `n` first, so a zero limit inspects no
elements). -/
def jsSlice {α : Type} (n : Nat) (l : List α) : List α :=
  match n with
  | 0 => []
  | n + 1 =>
    match l with
    | [] => []
    | x :: xs => x :: jsSlice n xs

/-- Whether an AI action is a capture move (`m.kind === "move" && m.capture`). -/
def AIMove.isCapture : AIMove → Bool
  | .move _ _ _ cap => cap
  | _ => false

/-- `shortlistReplies`: ALL capture replies, then the top `kOther` of the
rest.  (This retention applies only to the opponent's replies; the first-ply
list in `pickWithLookahead` is a plain slice.) -/
def shortlistReplies (b : Board) (side : Player) (kOther : Nat) : List AIMove :=
  let all := enumerateMoves b side
  let caps := all.filter (fun m => m.isCapture)
  let nonCaps := all.filter (fun m => !m.isCapture)
  caps ++ jsSlice kOther nonCaps

/-- The main loop of `pickWithLookahead` over the first-ply candidates,
carrying `bestMove`/`bestScore` (`none` = −∞).  An action that leaves the
opponent with zero keys is returned immediately with the terminal sentinel
score 9999 ↦ 999900; otherwise the minimax score is
`eval(after us) − min(eval after each shortlisted reply)` (0 with no
replies), and a strictly better score replaces the incumbent. -/
def pickGo (b : Board) (side : Player) (rl : Nat) :
    List AIMove → Option AIMove → Option Int → Option AIMove
  | [], best, _ => best
  | m :: rest, best, bestScore =>
    let nb := applyMoveClone b side m
    if keysRemaining nb (other side) = 0 then some (m.setScore 999900)
    else
      let baseAfterUs := evaluateBoard nb side
      let vals := (shortlistReplies nb (other side) rl).map
        (fun r => evaluateBoard (applyMoveClone nb (other side) r) side)
      let worstForUs : Int :=
        match vals with
        | [] => 0
        | v :: vs => vs.foldl min v
      let minimaxScore := baseAfterUs - worstForUs
      let takeIt :=
        match bestScore with
        | none => true
        | some bs => decide (bs < minimaxScore)
      if takeIt then pickGo b side rl rest (some (m.setScore minimaxScore)) (some minimaxScore)
      else pickGo b side rl rest best bestScore

/-- `pickWithLookahead`: two-ply search over the top `moveLimit` first-ply
candidates (plain slice — capture actions receive no special retention here).
With an empty candidate list the loop returns the initial `null`, matching
the source's early `if (!firstMoves.length) return null`. -/
def pickWithLookahead (b : Board) (side : Player) (replyLimit moveLimit : Nat) :
    Option AIMove :=
  pickGo b side replyLimit (jsSlice moveLimit (enumerateMoves b side)) none none

/-- Board for the C7 witness and counterexample: a black single at (0,0)
adjacent to white's only key piece at (0,1). -/
def c7wBoard : Board :=
  setCell (setCell emptyBoard ⟨0, 0⟩ (some ⟨[⟨Player.Black, false⟩], none⟩))
    ⟨0, 1⟩ (some ⟨[⟨Player.White, true⟩], none⟩)

/-! ## Theorems -/

/-- C1 -- For every board and coordinate, `valueAt` returns an integer between
0 and 3 inclusive, and returns exactly 0 when no piece occupies the square. -/
theorem c1_valueAt_clamped (b : Board) (pos : Coord) :
    0 ≤ valueAt b pos ∧ valueAt b pos ≤ 3 ∧ (pieceAt b pos = none → valueAt b pos = 0) := by
  unfold valueAt
  cases hp : pieceAt b pos with
  | none => simp
  | some p =>
    refine ⟨?_, ?_, by simp⟩ <;> simp only [] <;> split_ifs <;> omega

/-- C1 witness: evaluation on the concrete empty board, where the bounds hold
and the empty square (3,3) has value 0. -/
theorem c1_valueAt_clamped_witness :
    (0 ≤ valueAt emptyBoard ⟨3, 3⟩ ∧ valueAt emptyBoard ⟨3, 3⟩ ≤ 3 ∧
      (pieceAt emptyBoard ⟨3, 3⟩ = none → valueAt emptyBoard ⟨3, 3⟩ = 0)) ∧
    valueAt emptyBoard ⟨3, 3⟩ = 0 :=
  ⟨c1_valueAt_clamped emptyBoard ⟨3, 3⟩,
   (c1_valueAt_clamped emptyBoard ⟨3, 3⟩).2.2 (by decide)⟩

/-! ## Ray geometry

Auxiliary facts about the fuel-8 ray walk `rayGo`.  Throughout, `dr, dc` is a
unit compass step (each component in {-1,0,1}, not both zero) and the squares
of a ray from `f` are `⟨f.r + (k+1)*dr, f.c + (k+1)*dc⟩` for `k = 0, 1, …`. -/

/-- Every compass delta has components in {-1,0,1} and is non-zero. -/
theorem dirs_unit (d : Dir) :
    ((DIRS d).1 = -1 ∨ (DIRS d).1 = 0 ∨ (DIRS d).1 = 1) ∧
    ((DIRS d).2 = -1 ∨ (DIRS d).2 = 0 ∨ (DIRS d).2 = 1) ∧
    ¬((DIRS d).1 = 0 ∧ (DIRS d).2 = 0) := by
  cases d <;> exact ⟨by decide, by decide, by decide⟩

/-- A ray square is never the ray's start. -/
theorem coordStep_ne_start (f : Coord) (dr dc : Int) (k : Nat)
    (hne : ¬(dr = 0 ∧ dc = 0)) :
    (⟨f.r + (k + 1) * dr, f.c + (k + 1) * dc⟩ : Coord) ≠ f := by
  intro h
  have hr := congrArg Coord.r h
  have hc := congrArg Coord.c h
  simp only at hr hc
  refine hne ⟨?_, ?_⟩
  · have h1 : ((k : Int) + 1) * dr = 0 := by linarith
    rcases mul_eq_zero.mp h1 with h2 | h2
    · omega
    · exact h2
  · have h1 : ((k : Int) + 1) * dc = 0 := by linarith
    rcases mul_eq_zero.mp h1 with h2 | h2
    · omega
    · exact h2

/-- Distinct step counts give distinct ray squares. -/
theorem coordStep_inj (f : Coord) (dr dc : Int) (j k : Nat)
    (hne : ¬(dr = 0 ∧ dc = 0))
    (h : (⟨f.r + (j + 1) * dr, f.c + (j + 1) * dc⟩ : Coord) =
      ⟨f.r + (k + 1) * dr, f.c + (k + 1) * dc⟩) : j = k := by
  have hr := congrArg Coord.r h
  have hc := congrArg Coord.c h
  simp only at hr hc
  rcases Decidable.em (dr = 0) with h0 | h0
  · rcases Decidable.em (dc = 0) with h1 | h1
    · exact absurd ⟨h0, h1⟩ hne
    · have : ((j : Int) + 1) * dc = ((k : Int) + 1) * dc := by linarith
      have := mul_right_cancel₀ h1 this
      omega
  · have : ((j : Int) + 1) * dr = ((k : Int) + 1) * dr := by linarith
    have := mul_right_cancel₀ h0 this
    omega

/-- The start square of a ray walk is never among its output squares. -/
theorem ray_not_mem_start (b : Board) (f : Coord) (dr dc : Int)
    (hne : ¬(dr = 0 ∧ dc = 0)) :
    ∀ (n k : Nat) (r c : Int), r = f.r + (k + 1) * dr → c = f.c + (k + 1) * dc →
      f ∉ rayGo b dr dc n r c := by
  intro n
  induction n with
  | zero => intro k r c _ _; simp [rayGo]
  | succ n ih =>
    intro k r c hr hc hmem
    rw [rayGo] at hmem
    by_cases hb : inBounds r c
    · rw [if_pos hb] at hmem
      rcases List.mem_cons.mp hmem with h | h
      · exact coordStep_ne_start f dr dc k hne (by rw [← hr, ← hc, ← h])
      · by_cases ho : (pieceAt b ⟨r, c⟩).isSome
        · rw [if_pos ho] at h; exact absurd h (List.not_mem_nil f)
        · rw [if_neg ho] at h
          exact ih (k + 1) (r + dr) (c + dc)
            (by rw [hr]; push_cast; ring) (by rw [hc]; push_cast; ring) h
    · rw [if_neg hb] at hmem; exact absurd hmem (List.not_mem_nil f)

/-- A ray square with an empty, in-bounds prefix is among the walk's output. -/
theorem ray_mem_of_prefix_empty (b : Board) (f : Coord) (dr dc : Int) :
    ∀ (n k0 k : Nat) (r c : Int), r = f.r + (k0 + 1) * dr → c = f.c + (k0 + 1) * dc →
      k0 ≤ k → k < k0 + n →
      (∀ i : Nat, k0 ≤ i → i ≤ k → inBounds (f.r + (i + 1) * dr) (f.c + (i + 1) * dc) = true) →
      (∀ j : Nat, k0 ≤ j → j < k →
        pieceAt b ⟨f.r + (j + 1) * dr, f.c + (j + 1) * dc⟩ = none) →
      (⟨f.r + (k + 1) * dr, f.c + (k + 1) * dc⟩ : Coord) ∈ rayGo b dr dc n r c := by
  intro n
  induction n with
  | zero => intro k0 k r c _ _ hle hlt _ _; omega
  | succ n ih =>
    intro k0 k r c hr hc hle hlt hin hemp
    subst hr hc
    have hb : inBounds (f.r + (k0 + 1) * dr) (f.c + (k0 + 1) * dc) = true :=
      hin k0 le_rfl hle
    rw [rayGo, if_pos hb]
    rcases Nat.eq_or_lt_of_le hle with heq | hlt0
    · subst heq; exact List.mem_cons_self _ _
    · have he : pieceAt b ⟨f.r + (k0 + 1) * dr, f.c + (k0 + 1) * dc⟩ = none :=
        hemp k0 le_rfl hlt0
      have ho : (pieceAt b ⟨f.r + (k0 + 1) * dr, f.c + (k0 + 1) * dc⟩).isSome = false := by
        rw [he]; rfl
      apply List.mem_cons_of_mem
      rw [ho]
      simp only [Bool.false_eq_true, if_false]
      exact ih (k0 + 1) k _ _ (by push_cast; ring) (by push_cast; ring) hlt0 (by omega)
        (fun i h1 h2 => hin i (by omega) h2) (fun j h1 h2 => hemp j (by omega) h2)

/-- No ray square strictly beyond an occupied ray square is in the walk's
output. -/
theorem ray_not_mem_beyond (b : Board) (f : Coord) (dr dc : Int)
    (hne : ¬(dr = 0 ∧ dc = 0)) :
    ∀ (n k0 j k : Nat) (r c : Int), r = f.r + (k0 + 1) * dr → c = f.c + (k0 + 1) * dc →
      k0 ≤ j → j < k →
      pieceAt b ⟨f.r + (j + 1) * dr, f.c + (j + 1) * dc⟩ ≠ none →
      (⟨f.r + (k + 1) * dr, f.c + (k + 1) * dc⟩ : Coord) ∉ rayGo b dr dc n r c := by
  intro n
  induction n with
  | zero => intro k0 j k r c _ _ _ _ _; simp [rayGo]
  | succ n ih =>
    intro k0 j k r c hr hc hle hlt hocc hmem
    subst hr hc
    rw [rayGo] at hmem
    by_cases hb : inBounds (f.r + (k0 + 1) * dr) (f.c + (k0 + 1) * dc)
    · rw [if_pos hb] at hmem
      rcases List.mem_cons.mp hmem with h | h
      · have := coordStep_inj f dr dc k k0 hne h
        omega
      · by_cases ho : (pieceAt b ⟨f.r + (k0 + 1) * dr, f.c + (k0 + 1) * dc⟩).isSome
        · rw [if_pos ho] at h; exact absurd h (List.not_mem_nil _)
        · rw [if_neg ho] at h
          have hj0 : k0 ≠ j := by
            intro he
            rw [← he] at hocc
            cases hpo : pieceAt b ⟨f.r + (k0 + 1) * dr, f.c + (k0 + 1) * dc⟩ with
            | none => exact hocc hpo
            | some q => rw [hpo] at ho; exact ho rfl
          have h1 : f.r + (k0 + 1) * dr + dr = f.r + ((k0 + 1 : Nat) + 1) * dr := by
            push_cast; ring
          have h2 : f.c + (k0 + 1) * dc + dc = f.c + ((k0 + 1 : Nat) + 1) * dc := by
            push_cast; ring
          rw [h1, h2] at h
          exact ih (k0 + 1) j k _ _ rfl rfl (by omega) hlt hocc h
    · rw [if_neg hb] at hmem; exact absurd hmem (List.not_mem_nil _)

/-- From an in-bounds start, a ray has at most 8 in-bounds squares: an
in-bounds ray square has step index below 8. -/
theorem ray_inBounds_bound (f : Coord) (dr dc : Int) (k : Nat)
    (hdr : dr = -1 ∨ dr = 0 ∨ dr = 1) (hdc : dc = -1 ∨ dc = 0 ∨ dc = 1)
    (hne : ¬(dr = 0 ∧ dc = 0))
    (hf : inBounds f.r f.c = true)
    (hk : inBounds (f.r + (k + 1) * dr) (f.c + (k + 1) * dc) = true) : k < 8 := by
  simp only [inBounds, decide_eq_true_eq] at hf hk
  rcases hdr with h | h | h <;> rcases hdc with h1 | h1 | h1 <;> subst h <;> subst h1 <;>
    simp only [mul_neg_one, mul_zero, mul_one] at hk <;> omega

/-- In-bounds ray squares are downward closed in the step index (given an
in-bounds start). -/
theorem ray_inBounds_mono (f : Coord) (dr dc : Int) (i k : Nat)
    (hdr : dr = -1 ∨ dr = 0 ∨ dr = 1) (hdc : dc = -1 ∨ dc = 0 ∨ dc = 1)
    (hf : inBounds f.r f.c = true)
    (hk : inBounds (f.r + (k + 1) * dr) (f.c + (k + 1) * dc) = true)
    (hik : i ≤ k) : inBounds (f.r + (i + 1) * dr) (f.c + (i + 1) * dc) = true := by
  simp only [inBounds, decide_eq_true_eq] at hf hk ⊢
  have hik' : (i : Int) ≤ (k : Int) := by exact_mod_cast hik
  rcases hdr with h | h | h <;> rcases hdc with h1 | h1 | h1 <;> subst h <;> subst h1 <;>
    simp only [mul_neg_one, mul_zero, mul_one] at hk ⊢ <;> omega

/-- A found piece implies the queried coordinate is in bounds. -/
theorem pieceAt_some_inBounds (b : Board) (pos : Coord) (p : Piece)
    (h : pieceAt b pos = some p) : inBounds pos.r pos.c = true := by
  by_cases hb : inBounds pos.r pos.c
  · exact hb
  · rw [pieceAt, if_neg hb] at h; exact absurd h (by simp)

/-- C9 -- For every board and king with an arrow, the ray returned for that king
never includes the king's own square, includes every square along the arrow up
to and including the first occupied square, and includes no square beyond that
first occupied square. -/
theorem c9_ray_termination (b : Board) (fromSq : Coord) (p : Piece) (d : Dir)
    (hp : pieceAt b fromSq = some p) (hk : isKing p = true) (hd : p.arrowDir = some d) :
    fromSq ∉ getRayForKing b fromSq ∧
    (∀ k : Nat, inBounds (lineSq fromSq d k).r (lineSq fromSq d k).c = true →
      (∀ j < k, pieceAt b (lineSq fromSq d j) = none) →
      lineSq fromSq d k ∈ getRayForKing b fromSq) ∧
    (∀ j k : Nat, j < k → pieceAt b (lineSq fromSq d j) ≠ none →
      lineSq fromSq d k ∉ getRayForKing b fromSq) := by
  obtain ⟨hdr, hdc, hne⟩ := dirs_unit d
  have hray : getRayForKing b fromSq =
      rayGo b (DIRS d).1 (DIRS d).2 8 (fromSq.r + (DIRS d).1) (fromSq.c + (DIRS d).2) := by
    simp only [getRayForKing, hp, hk, hd, if_true]
  have hf : inBounds fromSq.r fromSq.c = true := pieceAt_some_inBounds b fromSq p hp
  have eq1 : fromSq.r + (DIRS d).1 = fromSq.r + (((0 : Nat) : Int) + 1) * (DIRS d).1 := by
    push_cast; ring
  have eq2 : fromSq.c + (DIRS d).2 = fromSq.c + (((0 : Nat) : Int) + 1) * (DIRS d).2 := by
    push_cast; ring
  refine ⟨?_, ?_, ?_⟩
  · rw [hray]
    exact ray_not_mem_start b fromSq _ _ hne 8 0 _ _ eq1 eq2
  · intro k hkin hkemp
    simp only [lineSq] at hkin hkemp ⊢
    rw [hray]
    have hk8 : k < 8 := ray_inBounds_bound fromSq _ _ k hdr hdc hne hf hkin
    exact ray_mem_of_prefix_empty b fromSq _ _ 8 0 k _ _ eq1 eq2 (Nat.zero_le k)
      (by omega)
      (fun i _ hik => ray_inBounds_mono fromSq _ _ i k hdr hdc hf hkin hik)
      (fun j _ hjk => hkemp j hjk)
  · intro j k hjk hocc
    simp only [lineSq] at hocc ⊢
    rw [hray]
    exact ray_not_mem_beyond b fromSq _ _ hne 8 0 j k _ _ eq1 eq2 (Nat.zero_le j) hjk hocc

/-- C9 witness: on `c9Board` the king's ray omits the origin (3,3), contains
the blocker square (3,5), and stops before (3,6). -/
theorem c9_ray_termination_witness :
    (⟨3, 3⟩ : Coord) ∉ getRayForKing c9Board ⟨3, 3⟩ ∧
    lineSq ⟨3, 3⟩ Dir.E 1 ∈ getRayForKing c9Board ⟨3, 3⟩ ∧
    lineSq ⟨3, 3⟩ Dir.E 2 ∉ getRayForKing c9Board ⟨3, 3⟩ := by
  have h := c9_ray_termination c9Board ⟨3, 3⟩
    ⟨[⟨Player.White, false⟩, ⟨Player.White, false⟩], some Dir.E⟩ Dir.E
    (by decide) (by decide) (by decide)
  exact ⟨h.1, h.2.1 1 (by decide) (by decide), h.2.2 1 2 (by decide) (by decide)⟩

/-- C2 -- With an attacker at `fromSq` and an enemy defender at `toSq`, a
one-step capture is legal iff the defender's value is at most the attacker's
(`canCapture`), so equal values are capturable; and for an unfrozen attacker
the membership of an adjacent enemy square in `legalMovesFor`'s capture list
is governed by the same comparison. -/
theorem c2_capture_tie (b : Board) (fromSq toSq : Coord) (atkP defP : Piece)
    (h1 : pieceAt b fromSq = some atkP) (h2 : pieceAt b toSq = some defP)
    (h3 : ownerOf atkP ≠ ownerOf defP) :
    (canCapture b fromSq toSq = true ↔ valueAt b toSq ≤ valueAt b fromSq) ∧
    (valueAt b toSq = valueAt b fromSq → canCapture b fromSq toSq = true) ∧
    (1 ≤ valueAt b fromSq → toSq ∈ neighbors fromSq →
      (toSq ∈ (legalMovesFor b fromSq).captures ↔ valueAt b toSq ≤ valueAt b fromSq)) := by
  have hcap : canCapture b fromSq toSq = decide (valueAt b toSq ≤ valueAt b fromSq) := by
    simp only [canCapture, h1, h2]
    rw [if_neg h3]
  refine ⟨?_, ?_, ?_⟩
  · rw [hcap]; exact decide_eq_true_iff
  · intro he; rw [hcap]; exact decide_eq_true (le_of_eq he)
  · intro hv hn
    have hbnd : inBounds toSq.r toSq.c = true := pieceAt_some_inBounds b toSq defP h2
    simp only [legalMovesFor, h1, if_pos hv, List.mem_filter]
    constructor
    · rintro ⟨-, hpred⟩
      rw [hbnd, h2] at hpred
      simp only [Bool.true_and, Bool.and_eq_true, Bool.not_eq_true',
        decide_eq_true_eq, decide_eq_false_iff_not] at hpred
      exact hpred.2
    · intro hle
      refine ⟨hn, ?_⟩
      rw [hbnd, h2]
      simp only [Bool.true_and, Bool.and_eq_true, Bool.not_eq_true',
        decide_eq_true_eq, decide_eq_false_iff_not]
      exact ⟨fun hh => h3 hh.symm, hle⟩

/-- C2 witness: the equal-value capture on `c2Board` is legal and listed. -/
theorem c2_capture_tie_witness :
    canCapture c2Board ⟨0, 0⟩ ⟨0, 1⟩ = true ∧
    (⟨0, 1⟩ : Coord) ∈ (legalMovesFor c2Board ⟨0, 0⟩).captures := by
  have h := c2_capture_tie c2Board ⟨0, 0⟩ ⟨0, 1⟩ ⟨[⟨Player.Black, false⟩], none⟩
    ⟨[⟨Player.White, false⟩], none⟩ (by decide) (by decide) (by decide)
  exact ⟨h.2.1 (by decide), (h.2.2 (by decide) (by decide)).mpr (by decide)⟩

/-- On a well-formed board every found piece has 1 or 2 counters. -/
theorem wf_piece_counters (b : Board) (pos : Coord) (p : Piece)
    (hwf : WFBoard b = true) (hp : pieceAt b pos = some p) :
    1 ≤ p.counters.length ∧ p.counters.length ≤ 2 := by
  rw [pieceAt] at hp
  by_cases hb : inBounds pos.r pos.c
  · rw [if_pos hb] at hp
    rw [cellAtN] at hp
    cases hrow : List.get? b pos.r.toNat with
    | none => simp only [hrow] at hp; exact absurd hp (by simp)
    | some row =>
      simp only [hrow] at hp
      cases hc : List.get? row pos.c.toNat with
      | none => simp only [hc] at hp; exact absurd hp (by simp)
      | some cell =>
        simp only [hc, Option.getD_some] at hp
        have hrowmem : row ∈ b := List.get?_mem hrow
        have hcellmem : cell ∈ row := List.get?_mem hc
        rw [WFBoard, List.all_eq_true] at hwf
        have hall := List.all_eq_true.mp (hwf row hrowmem) cell hcellmem
        rw [hp] at hall
        simp only [Bool.and_eq_true, decide_eq_true_eq] at hall
        exact hall
  · rw [if_neg hb] at hp; exact absurd hp (by simp)

/-- C3 -- The combine list is empty whenever the piece at `fromSq` is a king or
carries a key counter; every offered combine destination holds a friendly
non-key non-king piece (a single, on well-formed boards) while the mover is a
non-key single as well; and `canCombine` only accepts two friendly non-key
singles. -/
theorem c3_combine_restriction (b : Board) (fromSq : Coord) :
    (∀ me, pieceAt b fromSq = some me → (isKing me = true ∨ isKeyPiece me = true) →
      (legalMovesFor b fromSq).combines = []) ∧
    (∀ q, q ∈ (legalMovesFor b fromSq).combines →
      ∃ me t, pieceAt b fromSq = some me ∧ pieceAt b q = some t ∧
        isKing me = false ∧ isKeyPiece me = false ∧
        isKing t = false ∧ isKeyPiece t = false ∧ ownerOf t = ownerOf me ∧
        (WFBoard b = true → me.counters.length = 1 ∧ t.counters.length = 1)) ∧
    (∀ mover target, canCombine mover target = true →
      mover.counters.length = 1 ∧ target.counters.length = 1 ∧
      isKeyPiece mover = false ∧ isKeyPiece target = false ∧
      ownerOf mover = ownerOf target) := by
  refine ⟨?_, ?_, ?_⟩
  · intro me hme hbad
    simp only [legalMovesFor, hme]
    rcases hbad with h | h <;> simp [h]
  · intro q hq
    cases hme : pieceAt b fromSq with
    | none => rw [legalMovesFor, hme] at hq; exact absurd hq (List.not_mem_nil q)
    | some me =>
      simp only [legalMovesFor, hme] at hq
      by_cases hcond : (1 ≤ valueAt b fromSq && !isKing me && !isKeyPiece me) = true
      · rw [if_pos hcond] at hq
        simp only [Bool.and_eq_true, Bool.not_eq_true'] at hcond
        obtain ⟨⟨-, hking⟩, hkey⟩ := hcond
        rw [List.mem_filter] at hq
        obtain ⟨-, hpred⟩ := hq
        cases ht : pieceAt b q with
        | none => rw [ht] at hpred; simp at hpred
        | some t =>
          rw [ht] at hpred
          simp only [Bool.and_eq_true, Bool.not_eq_true', decide_eq_true_eq] at hpred
          obtain ⟨-, ⟨htking, howner⟩, htkey⟩ := hpred
          refine ⟨me, t, rfl, rfl, hking, hkey, htking, htkey, howner, fun hwf => ?_⟩
          have h1 := wf_piece_counters b fromSq me hwf hme
          have h2 := wf_piece_counters b q t hwf ht
          rw [isKing] at hking htking
          simp only [beq_eq_false_iff_ne, ne_eq] at hking htking
          omega
      · rw [if_neg hcond] at hq; exact absurd hq (List.not_mem_nil q)
  · intro mover target h
    rcases mover with ⟨mcs, mad⟩
    rcases target with ⟨tcs, tad⟩
    rcases mcs with - | ⟨m0, - | ⟨m1, mrest⟩⟩ <;> rcases tcs with - | ⟨t0, - | ⟨t1, trest⟩⟩ <;>
      simp only [canCombine] at h
    all_goals first
    | exact (Bool.false_ne_true h).elim
    | · simp only [Bool.and_eq_true, Bool.not_eq_true', decide_eq_true_eq] at h
        obtain ⟨⟨hm0, ht0⟩, how⟩ := h
        refine ⟨rfl, rfl, ?_, ?_, how⟩ <;> simp [isKeyPiece, hm0, ht0]

/-- C3 witness: the king at (4,4) offers no combines, and `canCombine` accepts
the two adjacent non-key singles. -/
theorem c3_combine_restriction_witness :
    (legalMovesFor c3Board ⟨4, 4⟩).combines = [] ∧
    (isKeyPiece (⟨[⟨Player.Black, false⟩], none⟩ : Piece) = false ∧
      isKeyPiece (⟨[⟨Player.Black, false⟩], none⟩ : Piece) = false ∧
      ownerOf (⟨[⟨Player.Black, false⟩], none⟩ : Piece) =
        ownerOf (⟨[⟨Player.Black, false⟩], none⟩ : Piece)) := by
  have h := c3_combine_restriction c3Board ⟨4, 4⟩
  refine ⟨h.1 ⟨[⟨Player.Black, false⟩, ⟨Player.Black, false⟩], some Dir.N⟩
    (by decide) (Or.inl (by decide)), ?_⟩
  have h3 := h.2.2 ⟨[⟨Player.Black, false⟩], none⟩ ⟨[⟨Player.Black, false⟩], none⟩ (by decide)
  exact ⟨h3.2.2.1, h3.2.2.2.1, h3.2.2.2.2⟩

/-- C10 -- For every piece with an arrow, one clockwise step followed by one
counter-clockwise step restores the arrow, and eight successive clockwise
steps restore it as well (the 8-point rotation is cyclic). -/
theorem c10_rotate_cyclic (p : Piece) (d0 : Dir) (h : p.arrowDir = some d0) :
    rotateArrow (rotateArrow p RotDir.CW) RotDir.CCW = p ∧
    rotateArrow (rotateArrow (rotateArrow (rotateArrow (rotateArrow (rotateArrow
      (rotateArrow (rotateArrow p RotDir.CW) RotDir.CW) RotDir.CW) RotDir.CW)
      RotDir.CW) RotDir.CW) RotDir.CW) RotDir.CW = p := by
  rcases p with ⟨cs, ad⟩
  simp only at h
  subst h
  cases d0 <;> exact ⟨rfl, rfl⟩

/-- C10 witness: a concrete king with a north arrow. -/
theorem c10_rotate_cyclic_witness :
    rotateArrow (rotateArrow
      (⟨[⟨Player.White, false⟩, ⟨Player.White, false⟩], some Dir.N⟩ : Piece)
      RotDir.CW) RotDir.CCW =
      ⟨[⟨Player.White, false⟩, ⟨Player.White, false⟩], some Dir.N⟩ :=
  (c10_rotate_cyclic ⟨[⟨Player.White, false⟩, ⟨Player.White, false⟩], some Dir.N⟩
    Dir.N rfl).1

/-! ## Board updates and the rotation/value invariance -/

/-- A found piece exposes the underlying row and cell entries. -/
theorem cellAt_of_pieceAt_some (b : Board) (pos : Coord) (p : Piece)
    (hp : pieceAt b pos = some p) :
    ∃ row, List.get? b pos.r.toNat = some row ∧ List.get? row pos.c.toNat = some (some p) := by
  have hb := pieceAt_some_inBounds b pos p hp
  rw [pieceAt, if_pos hb, cellAtN] at hp
  cases hrow : List.get? b pos.r.toNat with
  | none => simp only [hrow] at hp; exact absurd hp (by simp)
  | some row =>
    simp only [hrow] at hp
    cases hc : List.get? row pos.c.toNat with
    | none => simp only [hc] at hp; exact absurd hp (by simp)
    | some cell =>
      simp only [hc, Option.getD_some] at hp
      exact ⟨row, rfl, by rw [hc, hp]⟩

/-- Writing over an occupied square is read back by `pieceAt`. -/
theorem pieceAt_setCell_self (b : Board) (pos : Coord) (v : Option Piece) (p : Piece)
    (hp : pieceAt b pos = some p) :
    pieceAt (setCell b pos v) pos = v := by
  have hb := pieceAt_some_inBounds b pos p hp
  obtain ⟨row, hrow, hcell⟩ := cellAt_of_pieceAt_some b pos p hp
  have hrl : pos.r.toNat < b.length := by
    by_contra hge
    rw [List.get?_eq_none.mpr (le_of_not_lt hge)] at hrow
    exact absurd hrow (by simp)
  have hcl : pos.c.toNat < row.length := by
    by_contra hge
    rw [List.get?_eq_none.mpr (le_of_not_lt hge)] at hcell
    exact absurd hcell (by simp)
  have hgd : b.getD pos.r.toNat [] = row := by
    show (List.get? b pos.r.toNat).getD [] = row
    rw [hrow]; rfl
  rw [setCell, if_pos hb, pieceAt, if_pos hb, cellAtN, hgd,
    List.get?_set_eq_of_lt _ hrl]
  show ((row.set pos.c.toNat v).get? pos.c.toNat).getD none = v
  rw [List.get?_set_eq_of_lt _ hcl]
  rfl

/-- Writes do not affect other squares. -/
theorem pieceAt_setCell_ne (b : Board) (pos : Coord) (v : Option Piece) (pos' : Coord)
    (hne : pos' ≠ pos) :
    pieceAt (setCell b pos v) pos' = pieceAt b pos' := by
  rw [setCell]
  by_cases hbp : inBounds pos.r pos.c
  swap
  · rw [if_neg hbp]
  rw [if_pos hbp]
  by_cases hbp' : inBounds pos'.r pos'.c
  swap
  · rw [pieceAt, pieceAt, if_neg hbp', if_neg hbp']
  rw [pieceAt, pieceAt, if_pos hbp', if_pos hbp', cellAtN, cellAtN]
  by_cases hr : pos'.r.toNat = pos.r.toNat
  · have hrint : pos'.r = pos.r := by
      simp only [inBounds, decide_eq_true_eq] at hbp hbp'
      omega
    have hcint : pos'.c ≠ pos.c := by
      intro hcc
      exact hne (by cases pos'; cases pos; simp only at hrint hcc; rw [hrint, hcc])
    have hcn : pos'.c.toNat ≠ pos.c.toNat := by
      simp only [inBounds, decide_eq_true_eq] at hbp hbp'
      omega
    rw [hr, List.get?_set_eq _ _ _]
    cases hrow : List.get? b pos.r.toNat with
    | none => rfl
    | some row =>
      have hgd : b.getD pos.r.toNat [] = row := by
        show (List.get? b pos.r.toNat).getD [] = row
        rw [hrow]; rfl
      simp only [hgd, Option.map_eq_map, Option.map_some']
      rw [List.get?_set_ne _ _ (fun hcc => hcn hcc.symm)]
  · rw [List.get?_set_ne _ _ (fun hrr => hr hrr.symm)]

/-- The ray walk depends on the board only through square occupancy. -/
theorem rayGo_occ_congr (b1 b2 : Board)
    (h : ∀ x : Coord, (pieceAt b1 x).isSome = (pieceAt b2 x).isSome) (dr dc : Int) :
    ∀ (n : Nat) (r c : Int), rayGo b1 dr dc n r c = rayGo b2 dr dc n r c := by
  intro n
  induction n with
  | zero => intro r c; rfl
  | succ n ih =>
    intro r c
    rw [rayGo, rayGo, h ⟨r, c⟩, ih (r + dr) (c + dc)]

/-- `getRayForKing` is unchanged by board edits that preserve the piece at the
king's square and the occupancy of every square. -/
theorem getRayForKing_congr (b1 b2 : Board) (q : Coord)
    (hq : pieceAt b1 q = pieceAt b2 q)
    (h : ∀ x : Coord, (pieceAt b1 x).isSome = (pieceAt b2 x).isSome) :
    getRayForKing b1 q = getRayForKing b2 q := by
  rw [getRayForKing, getRayForKing, hq]
  cases pieceAt b2 q with
  | none => rfl
  | some p =>
    cases hk : isKing p
    · simp [hk]
    · simp only [hk, if_true]
      cases p.arrowDir with
      | none => rfl
      | some d => exact rayGo_occ_congr b1 b2 h _ _ 8 _ _

/-- No square is on its own king's ray. -/
theorem self_not_mem_getRay (b : Board) (x : Coord) : x ∉ getRayForKing b x := by
  rw [getRayForKing]
  cases hp : pieceAt b x with
  | none => exact List.not_mem_nil x
  | some p =>
    cases hk : isKing p
    · simp [hk]
    · simp only [hk, if_true]
      cases hd : p.arrowDir with
      | none => exact List.not_mem_nil x
      | some d =>
        obtain ⟨-, -, hne⟩ := dirs_unit d
        exact ray_not_mem_start b x _ _ hne 8 0 _ _ (by push_cast; ring) (by push_cast; ring)

/-- For in-range grid indices, `pieceAt` agrees with the raw lookup. -/
theorem pieceAt_natCast (b : Board) (r c : Nat) (hr : r < 8) (hc : c < 8) :
    pieceAt b ⟨(r : Int), (c : Int)⟩ = cellAtN b r c := by
  rw [pieceAt, if_pos]
  · simp
  · simp only [inBounds, decide_eq_true_eq]
    omega

/-- A cell's ray contribution at a square not on that cell's own ray is 0. -/
theorem contrib_zero_of_not_mem (bb : Board) (sel : Coord) (q : Piece) (tO : Player)
    (hm : sel ∉ getRayForKing bb sel) :
    (if (isKing q && q.arrowDir.isSome) = true then
      (if sel ∈ getRayForKing bb sel then (if ownerOf q = tO then (1 : Int) else -1) else 0)
    else 0) = 0 := by
  by_cases hg : (isKing q && q.arrowDir.isSome) = true
  · rw [if_pos hg, if_neg hm]
  · rw [if_neg hg]

/-- Changing only the arrow of the piece at `sel` leaves `valueAt` at `sel`
unchanged: the square's own ray never covers the square, every other king and
the overall occupancy are untouched, and the counters are the same. -/
theorem valueAt_setArrow_self (b : Board) (sel : Coord) (p : Piece) (nd : Option Dir)
    (hp : pieceAt b sel = some p) :
    valueAt (setCell b sel (some { p with arrowDir := nd })) sel = valueAt b sel := by
  have hp' : pieceAt (setCell b sel (some { p with arrowDir := nd })) sel =
      some { p with arrowDir := nd } := pieceAt_setCell_self b sel _ p hp
  have hocc : ∀ x : Coord,
      (pieceAt (setCell b sel (some { p with arrowDir := nd })) x).isSome =
        (pieceAt b x).isSome := by
    intro x
    by_cases hx : x = sel
    · subst hx; rw [hp', hp]; rfl
    · rw [pieceAt_setCell_ne b sel _ x hx]
  have how : ownerOf { p with arrowDir := nd } = ownerOf p := rfl
  have hlen : ({ p with arrowDir := nd } : Piece).counters.length = p.counters.length := rfl
  have hdelta : rayDelta (setCell b sel (some { p with arrowDir := nd })) sel (ownerOf p) =
      rayDelta b sel (ownerOf p) := by
    rw [rayDelta, rayDelta]
    congr 1
    apply List.map_congr_left
    intro r hr
    congr 1
    apply List.map_congr_left
    intro c hc
    rw [List.mem_range] at hr hc
    rw [rayContrib, rayContrib]
    rw [← pieceAt_natCast _ r c hr hc, ← pieceAt_natCast b r c hr hc]
    by_cases hx : (⟨(r : Int), (c : Int)⟩ : Coord) = sel
    · rw [hx, hp', hp]
      have hm1 : sel ∉ getRayForKing (setCell b sel (some { p with arrowDir := nd })) sel :=
        self_not_mem_getRay _ sel
      have hm2 : sel ∉ getRayForKing b sel := self_not_mem_getRay b sel
      exact Eq.trans (contrib_zero_of_not_mem _ sel _ (ownerOf p) hm1)
        (contrib_zero_of_not_mem b sel p (ownerOf p) hm2).symm
    · rw [pieceAt_setCell_ne b sel _ _ hx]
      cases pieceAt b ⟨(r : Int), (c : Int)⟩ with
      | none => rfl
      | some q =>
        simp only []
        rw [getRayForKing_congr (setCell b sel (some { p with arrowDir := nd })) b
          ⟨(r : Int), (c : Int)⟩ (pieceAt_setCell_ne b sel _ _ hx) hocc]
  rw [valueAt, valueAt, hp', hp]
  simp only []
  rw [how, hlen, hdelta]

/-- One `actRotateArrow` step never changes the value at the rotated square. -/
theorem valueAt_actRotateArrow_self (b : Board) (sel : Coord) (rd : RotDir) :
    valueAt (actRotateArrow b sel rd) sel = valueAt b sel := by
  cases hp : pieceAt b sel with
  | none => simp only [actRotateArrow, hp]
  | some p =>
    simp only [actRotateArrow, hp]
    by_cases hk : isKing p = true
    · rw [if_pos hk]
      cases hd : p.arrowDir with
      | none => rfl
      | some a => exact valueAt_setArrow_self b sel p (some (rotStepDir rd a)) hp
    · rw [if_neg hk]

/-- Iterated clockwise rotation never changes the value at the rotated
square. -/
theorem valueAt_applyN_rotate (sel : Coord) (n : Nat) :
    ∀ b : Board, valueAt (applyN (fun bb => actRotateArrow bb sel RotDir.CW) n b) sel =
      valueAt b sel := by
  induction n with
  | zero => intro b; rfl
  | succ n ih =>
    intro b
    rw [applyN, ih (actRotateArrow b sel RotDir.CW), valueAt_actRotateArrow_self]

/-- C5 -- Confirming a rotation of a king ends the player's turn exactly when
the king's ability value recomputed on the post-rotation board is 2, and does
not end the turn when that post-rotation value is 3 or more.  (The source
consults the pre-rotation board, but rotating a king's own arrow provably
cannot change the value at its own square, so the two agree.) -/
theorem c5_rotation_turn_cost (b : Board) (sel : Coord) (p : Piece) (cur : Dir) (pv : Dir)
    (hp : pieceAt b sel = some p) (hk : isKing p = true) (hd : p.arrowDir = some cur) :
    ((confirmRotation b sel (some pv)).2 = true ↔
      valueAt (confirmRotation b sel (some pv)).1 sel = 2) ∧
    (3 ≤ valueAt (confirmRotation b sel (some pv)).1 sel →
      (confirmRotation b sel (some pv)).2 = false) := by
  have hred : confirmRotation b sel (some pv) =
      (applyN (fun bb => actRotateArrow bb sel RotDir.CW)
        ((DIR_ORDER.indexOf pv + 8 - DIR_ORDER.indexOf cur) % 8) b,
       valueAt b sel == 2) := by
    simp only [confirmRotation, hp, hk, hd, if_true]
  rw [hred]
  simp only []
  rw [valueAt_applyN_rotate]
  constructor
  · exact beq_iff_eq
  · intro h3
    simp only [beq_eq_false_iff_ne, ne_eq]
    omega

/-- C5 witness: confirming a rotation ends the turn for the value-2 king and
does not for the value-3 king. -/
theorem c5_rotation_turn_cost_witness :
    (confirmRotation c5Board2 ⟨3, 3⟩ (some Dir.E)).2 = true ∧
    (confirmRotation c5Board3 ⟨3, 3⟩ (some Dir.E)).2 = false := by
  constructor
  · exact (c5_rotation_turn_cost c5Board2 ⟨3, 3⟩
      ⟨[⟨Player.Black, false⟩, ⟨Player.Black, false⟩], some Dir.N⟩ Dir.N Dir.E
      (by decide) (by decide) (by decide)).1.mpr (by decide)
  · exact (c5_rotation_turn_cost c5Board3 ⟨3, 3⟩
      ⟨[⟨Player.Black, false⟩, ⟨Player.Black, false⟩], some Dir.N⟩ Dir.N Dir.E
      (by decide) (by decide) (by decide)).2 (by decide)

/-- Below value 3, the only scatter base is the king's own square. -/
theorem scatterBases_eq_of_v2 (b : Board) (fromSq : Coord) (me : Piece) (d : Dir)
    (hp : pieceAt b fromSq = some me) (hk : isKing me = true) (hd : me.arrowDir = some d)
    (hv : ¬ 3 ≤ valueAt b fromSq) :
    scatterBases b fromSq = [fromSq] := by
  simp only [scatterBases, hp, hk, hd, if_true, if_neg hv]

/-- C4 (amended) -- For a king with an arrow whose current value is at least 2,
a base from `scatterBases`, on-board landing squares, and no friendly piece on
either landing: `validateScatter` reports the scatter legal iff the summed
values of the enemy pieces on the two landings are at most the king's current
value at `fromSq`; in particular with both landings empty the scatter is
legal.  (The value ≥ 2 hypothesis is necessary: `validateScatter` rejects a
value-0/1 king outright even with empty landings.) -/
theorem c4_scatter_budget (b : Board) (fromSq base : Coord) (me : Piece) (d : Dir)
    (hp : pieceAt b fromSq = some me) (hk : isKing me = true) (hd : me.arrowDir = some d)
    (hv : 2 ≤ valueAt b fromSq)
    (hbase : base ∈ scatterBases b fromSq)
    (hib1 : inBounds (base.r + (DIRS d).1) (base.c + (DIRS d).2) = true)
    (hib2 : inBounds (base.r + 2 * (DIRS d).1) (base.c + 2 * (DIRS d).2) = true)
    (hal1 : (match pieceAt b ⟨base.r + (DIRS d).1, base.c + (DIRS d).2⟩ with
      | some t => decide (ownerOf t = ownerOf me)
      | none => false) = false)
    (hal2 : (match pieceAt b ⟨base.r + 2 * (DIRS d).1, base.c + 2 * (DIRS d).2⟩ with
      | some t => decide (ownerOf t = ownerOf me)
      | none => false) = false) :
    ((validateScatter b fromSq base).can = true ↔
      enemyValueOn b me ⟨base.r + (DIRS d).1, base.c + (DIRS d).2⟩ +
        enemyValueOn b me ⟨base.r + 2 * (DIRS d).1, base.c + 2 * (DIRS d).2⟩ ≤
        valueAt b fromSq) ∧
    (pieceAt b ⟨base.r + (DIRS d).1, base.c + (DIRS d).2⟩ = none →
      pieceAt b ⟨base.r + 2 * (DIRS d).1, base.c + 2 * (DIRS d).2⟩ = none →
      (validateScatter b fromSq base).can = true) := by
  have hnl : ¬ valueAt b fromSq < 2 := not_lt.mpr hv
  have hv2 : ¬(valueAt b fromSq = 2 ∧ base ≠ fromSq) := by
    rintro ⟨h2, hne⟩
    rw [scatterBases_eq_of_v2 b fromSq me d hp hk hd (by omega)] at hbase
    exact hne (List.mem_singleton.mp hbase)
  have hred : validateScatter b fromSq base =
      (if valueAt b fromSq <
          enemyValueOn b me ⟨base.r + (DIRS d).1, base.c + (DIRS d).2⟩ +
            enemyValueOn b me ⟨base.r + 2 * (DIRS d).1, base.c + 2 * (DIRS d).2⟩ then
        ⟨⟨base.r + (DIRS d).1, base.c + (DIRS d).2⟩,
          ⟨base.r + 2 * (DIRS d).1, base.c + 2 * (DIRS d).2⟩, false, some .captureExceeds⟩
      else
        ⟨⟨base.r + (DIRS d).1, base.c + (DIRS d).2⟩,
          ⟨base.r + 2 * (DIRS d).1, base.c + 2 * (DIRS d).2⟩, true, none⟩) := by
    simp only [validateScatter, hp, hk, hd, if_true, if_neg hnl, if_neg hv2]
    rw [if_neg (by push_neg; exact ⟨hib1, hib2⟩), if_neg (by rw [hal1, hal2]; simp)]
  constructor
  · rw [hred]
    by_cases hcmp : valueAt b fromSq <
        enemyValueOn b me ⟨base.r + (DIRS d).1, base.c + (DIRS d).2⟩ +
          enemyValueOn b me ⟨base.r + 2 * (DIRS d).1, base.c + 2 * (DIRS d).2⟩
    · rw [if_pos hcmp]
      simp only [Bool.false_eq_true, false_iff, not_le]
      exact hcmp
    · rw [if_neg hcmp]
      simp only [true_iff]
      omega
  · intro h1 h2
    rw [hred]
    have e1 : enemyValueOn b me ⟨base.r + (DIRS d).1, base.c + (DIRS d).2⟩ = 0 := by
      rw [enemyValueOn, h1]
    have e2 : enemyValueOn b me ⟨base.r + 2 * (DIRS d).1, base.c + 2 * (DIRS d).2⟩ = 0 := by
      rw [enemyValueOn, h2]
    rw [if_neg (by omega)]

/-- C4 witness: the in-place scatter over the (diminished, value-0) enemy is
within the value-2 king's budget and is accepted. -/
theorem c4_scatter_budget_witness :
    (validateScatter c4wBoard ⟨3, 3⟩ ⟨3, 3⟩).can = true :=
  (c4_scatter_budget c4wBoard ⟨3, 3⟩ ⟨3, 3⟩
      ⟨[⟨Player.White, false⟩, ⟨Player.White, false⟩], some Dir.E⟩ Dir.E
      (by decide) (by decide) (by decide) (by decide) (by decide)
      (by decide) (by decide) (by decide) (by decide)).1.mpr (by decide)

/-- C4 counterexample -- the claim "with zero enemy pieces on the landings the
scatter is always legal" (equivalently, legal iff the enemy sum 0 is within
the king's value) fails as stated: the white king at (0,0) is a king with an
arrow, the base (0,0) is a valid scatter base, both landing squares (0,1) and
(0,2) are on board, empty, and not ally-blocked, yet `validateScatter`
rejects the scatter because the king's value is 1 (< 2). -/
theorem c4_scatter_budget_counterexample :
    pieceAt c4xBoard ⟨0, 0⟩ =
      some ⟨[⟨Player.White, false⟩, ⟨Player.White, false⟩], some Dir.E⟩ ∧
    (⟨0, 0⟩ : Coord) ∈ scatterBases c4xBoard ⟨0, 0⟩ ∧
    pieceAt c4xBoard ⟨0, 1⟩ = none ∧
    pieceAt c4xBoard ⟨0, 2⟩ = none ∧
    inBounds 0 1 = true ∧ inBounds 0 2 = true ∧
    valueAt c4xBoard ⟨0, 0⟩ = 1 ∧
    (validateScatter c4xBoard ⟨0, 0⟩ ⟨0, 0⟩).can = false ∧
    (validateScatter c4xBoard ⟨0, 0⟩ ⟨0, 0⟩).reason = some ScatterReason.valueTooLow := by
  decide

/-- C6 (amended) -- The bounds-checked accessors return a neutral result for
every out-of-bounds coordinate — `pieceAt` gives `null`, `valueAt` gives 0,
`legalMovesFor` gives empty move sets — and on an 8×8 board the second
version's `pieceAt` never reaches a faulting access (`pieceAtE` always
succeeds).  (The first version's `pieceAt` at rules.ts line 13 throws instead;
see the counterexample.) -/
theorem c6_oob_neutral (b : Board) (pos : Coord) :
    (inBounds pos.r pos.c = false →
      pieceAt b pos = none ∧ valueAt b pos = 0 ∧ legalMovesFor b pos = ⟨[], [], []⟩) ∧
    (WF8 b = true → pieceAtE b pos = Except.ok (pieceAt b pos)) := by
  constructor
  · intro hoob
    have hpa : pieceAt b pos = none := by
      rw [pieceAt, if_neg (by rw [hoob]; simp)]
    refine ⟨hpa, ?_, ?_⟩
    · rw [valueAt, hpa]
    · rw [legalMovesFor, hpa]
  · intro hwf
    by_cases hb : inBounds pos.r pos.c
    · rw [pieceAtE, if_pos hb, pieceAt, if_pos hb]
      simp only [WF8, Bool.and_eq_true, beq_iff_eq, List.all_eq_true] at hwf
      obtain ⟨hlen, hrows⟩ := hwf
      simp only [inBounds, decide_eq_true_eq] at hb
      have hr8 : pos.r.toNat < b.length := by omega
      obtain ⟨row, hrow⟩ : ∃ row, List.get? b pos.r.toNat = some row :=
        ⟨_, List.get?_eq_get hr8⟩
      have hrl : row.length = 8 := hrows row (List.get?_mem hrow)
      have hc8 : pos.c.toNat < row.length := by omega
      obtain ⟨cell, hcell⟩ : ∃ cell, List.get? row pos.c.toNat = some cell :=
        ⟨_, List.get?_eq_get hc8⟩
      have h0r : (0 : Int) ≤ pos.r := hb.1
      have h0c : (0 : Int) ≤ pos.c := hb.2.2.1
      simp only [jsIndex, cellAtN, if_pos h0r, if_pos h0c, hrow, hcell, Option.getD_some]
    · rw [pieceAtE, if_neg hb, pieceAt, if_neg hb]

/-- C6 witness: concrete neutral results off the empty board, and a successful
checked access on it. -/
theorem c6_oob_neutral_witness :
    (pieceAt emptyBoard ⟨9, -2⟩ = none ∧ valueAt emptyBoard ⟨9, -2⟩ = 0 ∧
      legalMovesFor emptyBoard ⟨9, -2⟩ = ⟨[], [], []⟩) ∧
    pieceAtE emptyBoard ⟨9, -2⟩ = Except.ok (pieceAt emptyBoard ⟨9, -2⟩) :=
  ⟨(c6_oob_neutral emptyBoard ⟨9, -2⟩).1 (by decide),
   (c6_oob_neutral emptyBoard ⟨9, -2⟩).2 (by decide)⟩

/-- C6 counterexample -- the claim "pieceAt … never raise[s] an exception,
including out-of-bounds coordinates" is false for the first version's
`pieceAt` (rules.ts line 13): querying row 8 or row −1 dereferences
`undefined` and throws, while the second version returns `null`/0. -/
theorem c6_oob_counterexample :
    pieceAtV1 emptyBoard ⟨8, 0⟩ = Except.error () ∧
    pieceAtV1 emptyBoard ⟨-1, 3⟩ = Except.error () ∧
    pieceAt emptyBoard ⟨8, 0⟩ = none ∧
    valueAt emptyBoard ⟨8, 0⟩ = 0 :=
  ⟨rfl, rfl, by decide, by decide⟩

/-- C8 (amended) -- The action-application functions no-op (return the board
unchanged) when the acted-on piece is missing or of the wrong kind: a move or
combine from an empty square, a scatter or rotate of a non-king, a rotate of
an arrowless king.  They perform no further precondition checks (see the
counterexample: a scatter overwrites a friendly piece on a landing square). -/
theorem c8_apply_noop_guards (b : Board) (fromSq toSq l1 l2 : Coord) (cap : Bool)
    (rd : RotDir) (side : Player) (s : Int) :
    (pieceAt b fromSq = none → actMove b fromSq toSq cap = b) ∧
    (pieceAt b fromSq = none → actCombine b fromSq toSq = b) ∧
    ((∀ k, pieceAt b fromSq = some k → isKing k = false) → actScatter b fromSq l1 l2 = b) ∧
    (pieceAt b fromSq = none → applyMoveClone b side (.move fromSq toSq s cap) = b) ∧
    ((∀ k, pieceAt b fromSq = some k → isKing k = false) →
      applyMoveClone b side (.scatter fromSq l1 l2 s) = b) ∧
    ((∀ k, pieceAt b fromSq = some k → isKing k = false ∨ k.arrowDir = none) →
      applyMoveClone b side (.rotate fromSq rd s) = b) := by
  refine ⟨?_, ?_, ?_, ?_, ?_, ?_⟩
  · intro h; rw [actMove, h]
  · intro h; rw [actCombine, h]
  · intro h
    cases hk : pieceAt b fromSq with
    | none => rw [actScatter, hk]
    | some k => simp only [actScatter, hk]; rw [h k hk]; simp
  · intro h; simp only [applyMoveClone, h]
  · intro h
    cases hk : pieceAt b fromSq with
    | none => simp only [applyMoveClone, hk]
    | some k => simp only [applyMoveClone, hk]; rw [h k hk]; simp
  · intro h
    cases hk : pieceAt b fromSq with
    | none => simp only [applyMoveClone, hk]
    | some k =>
      simp only [applyMoveClone, hk]
      rcases h k hk with hkk | ha
      · rw [hkk]; simp
      · by_cases hkk : isKing k = true
        · rw [if_pos hkk, ha]
        · rw [if_neg hkk]

/-- C8 witness: the guards fire on concrete wrong-kind inputs — a move from an
empty square and a scatter of a non-king both leave the board unchanged. -/
theorem c8_apply_noop_guards_witness :
    actMove c8Board ⟨5, 5⟩ ⟨5, 6⟩ false = c8Board ∧
    actScatter c8Board ⟨0, 1⟩ ⟨0, 2⟩ ⟨0, 3⟩ = c8Board := by
  have h := c8_apply_noop_guards c8Board ⟨5, 5⟩ ⟨5, 6⟩ ⟨0, 2⟩ ⟨0, 3⟩ false RotDir.CW
    Player.Black 0
  refine ⟨h.1 (by decide), ?_⟩
  have h2 := c8_apply_noop_guards c8Board ⟨0, 1⟩ ⟨5, 6⟩ ⟨0, 2⟩ ⟨0, 3⟩ false RotDir.CW
    Player.Black 0
  exact h2.2.2.1 (by decide)

/-- C8 counterexample -- the claim "applying an action whose precondition is
violated returns the input board unchanged … applying a scatter never removes
a friendly piece from a landing square" is false: scattering the king at
(0,0) onto its own key single at (0,1) is an invalid input (ally-blocked
landing, rejected by `validateScatter`), yet `actScatter` changes the board
and replaces the friendly key piece with a fresh non-key single. -/
theorem c8_scatter_counterexample :
    pieceAt c8Board ⟨0, 1⟩ = some ⟨[⟨Player.Black, true⟩], none⟩ ∧
    (validateScatter c8Board ⟨0, 0⟩ ⟨0, 0⟩).can = false ∧
    actScatter c8Board ⟨0, 0⟩ ⟨0, 1⟩ ⟨0, 2⟩ ≠ c8Board ∧
    pieceAt (actScatter c8Board ⟨0, 0⟩ ⟨0, 1⟩ ⟨0, 2⟩) ⟨0, 1⟩ =
      some ⟨[⟨Player.Black, false⟩], none⟩ := by
  refine ⟨by decide, by decide, by decide, by decide⟩

/-- `applyMoveClone` ignores the score annotation. -/
theorem applyMoveClone_setScore (b : Board) (side : Player) (m : AIMove) (s : Int) :
    applyMoveClone b side (m.setScore s) = applyMoveClone b side m := by
  cases m <;> rfl

/-- `setScore` installs the given score. -/
theorem score_setScore (m : AIMove) (s : Int) : AIMove.score (m.setScore s) = s := by
  cases m <;> rfl

/-- The search loop snap-picks (with sentinel score) as soon as its list
contains an action that leaves the opponent keyless, regardless of the
accumulated best move and score. -/
theorem pickGo_snap (b : Board) (side : Player) (rl : Nat) :
    ∀ (l : List AIMove) (best : Option AIMove) (bs : Option Int),
      l.any (fun m => keysRemaining (applyMoveClone b side m) (other side) == 0) = true →
      ∃ m', pickGo b side rl l best bs = some m' ∧
        AIMove.score m' = 999900 ∧
        keysRemaining (applyMoveClone b side m') (other side) = 0 := by
  intro l
  induction l with
  | nil => intro best bs h; exact absurd h (by simp)
  | cons m rest ih =>
    intro best bs h
    rw [List.any_cons] at h
    by_cases hm : keysRemaining (applyMoveClone b side m) (other side) = 0
    · refine ⟨m.setScore 999900, ?_, score_setScore m 999900, ?_⟩
      · rw [pickGo, if_pos hm]
      · rw [applyMoveClone_setScore]; exact hm
    · have hrest : rest.any
          (fun m => keysRemaining (applyMoveClone b side m) (other side) == 0) = true := by
        rcases Bool.or_eq_true_iff.mp h with h1 | h1
        · exact absurd (beq_iff_eq.mp h1) hm
        · exact h1
      rw [pickGo, if_neg hm]
      simp only []
      split
      · exact ih _ _ hrest
      · exact ih _ _ hrest

/-- C7 (amended) -- Whenever some action among the top-`moveLimit` first-ply
candidates captures the opponent's last key (leaves the opponent keyless),
`pickWithLookahead` returns such an action with its score overridden to the
terminal sentinel (9999 ↦ 999900), regardless of the other candidates'
scores.  (Actions outside the plain `slice(0, moveLimit)` — captures included
— are never considered: first-ply capture retention does not exist in the
code; see the counterexample.) -/
theorem c7_lookahead_snap (b : Board) (side : Player) (rl ml : Nat)
    (h : (jsSlice ml (enumerateMoves b side)).any
      (fun m => keysRemaining (applyMoveClone b side m) (other side) == 0) = true) :
    ∃ m', pickWithLookahead b side rl ml = some m' ∧
      AIMove.score m' = 999900 ∧
      keysRemaining (applyMoveClone b side m') (other side) = 0 :=
  pickGo_snap b side rl (jsSlice ml (enumerateMoves b side)) none none h

set_option maxRecDepth 10000 in
/-- C7 witness: with the default limits the key-capturing action is in the
candidate list, and the search returns a sentinel-scored keyless-making
action. -/
theorem c7_lookahead_snap_witness :
    ((jsSlice 24 (enumerateMoves c7wBoard Player.Black)).any
      (fun m => keysRemaining (applyMoveClone c7wBoard Player.Black m)
        (other Player.Black) == 0) = true) ∧
    (∃ m', pickWithLookahead c7wBoard Player.Black 6 24 = some m' ∧
      AIMove.score m' = 999900 ∧
      keysRemaining (applyMoveClone c7wBoard Player.Black m') (other Player.Black) = 0) :=
  ⟨by decide, c7_lookahead_snap c7wBoard Player.Black 6 24 (by decide)⟩

/-- C7 counterexample -- the claim fails as stated: on `c7wBoard` black has a
legal capture of white's only remaining key piece, yet with `moveLimit = 0`
(`{moveLimit: 0}` survives the `??` default) the first-ply candidate list is
the plain empty slice — no capture retention is applied at the first ply —
and `pickWithLookahead` returns `null` instead of the key-capturing action. -/
theorem c7_lookahead_counterexample :
    keysRemaining c7wBoard Player.White = 1 ∧
    (⟨0, 1⟩ : Coord) ∈ (legalMovesFor c7wBoard ⟨0, 0⟩).captures ∧
    pieceAt c7wBoard ⟨0, 1⟩ = some ⟨[⟨Player.White, true⟩], none⟩ ∧
    keysRemaining (applyMoveClone c7wBoard Player.Black (.move ⟨0, 0⟩ ⟨0, 1⟩ 0 true))
      Player.White = 0 ∧
    pickWithLookahead c7wBoard Player.Black 6 0 = none := by
  refine ⟨by decide, by decide, by decide, by decide, rfl⟩
